import Mathlib

/-!
Verification development for the `disaggregator/utils.py` module of the
wikienergy repository.

The module manipulates appliance energy traces: a trace is a pandas Series
(time-indexed numeric values) together with a metadata dictionary.  We give a
shallow embedding of the data model and of the utility functions the claims
concern: `aggregate_traces`, `aggregate_instances`, `concatenate_traces`,
`split_trace_into_rate`, `order_traces`, `resample_trace` and
`get_trace_windows`.

Modelling conventions, used throughout:
* a pandas timestamp is modelled as a natural number (timestamps are totally
  ordered and comparable, which is all the code uses);
* the numeric sample values (Decimal / float in the source) are modelled as
  integers — none of the functions under study uses any property of the
  value domain beyond addition and copying;
* a pandas Series is the ordered list of its (timestamp, value) pairs;
* a metadata dictionary is an association list from string keys to values
  (values modelled as naturals: the only metadata value the module itself
  writes is the integer group index `trace_num`; all other entries are
  opaque and merely copied);
* a Python call either returns a value normally, returns the class object
  `NotImplementedError` as its result (`return NotImplementedError` in
  `aggregate_traces` / `aggregate_instances`), or raises an exception.
-/

/-- A pandas timestamp, modelled as a natural number. -/
abbrev Timestamp := Nat

/-- A pandas Series: the ordered list of its (timestamp, value) pairs. -/
abbrev Series := List (Timestamp × Int)

/-- A metadata dictionary: an association list from string keys to values. -/
abbrev Metadata := List (String × Nat)

/-- Modelled from the spec: `appliance.ApplianceTrace` (the `appliance`
module is not part of the sources) is a plain data holder exposing a
time-indexed numeric series and a metadata mapping. -/
structure ApplianceTrace where
  series : Series
  metadata : Metadata
  deriving DecidableEq

/-- Modelled from the spec: `appliance.ApplianceInstance` is a plain data
holder exposing an ordered sequence of traces and a metadata mapping. -/
structure ApplianceInstance where
  traces : List ApplianceTrace
  metadata : Metadata
  deriving DecidableEq

/-- Exceptions the embedded fragment of the module can raise. -/
inductive PyError where
  | notImplementedError : PyError
  | indexError : PyError
  | valueError : PyError
  | nameError : PyError
  | sampleError : String → PyError
  deriving DecidableEq

/-- Outcome of a Python call: a normal return, the class object
`NotImplementedError` returned as the result, or a raised exception. -/
inductive Py (α : Type) where
  | ok : α → Py α
  | retNotImplemented : Py α
  | raised : PyError → Py α
  deriving DecidableEq

/-- Pointwise addition of two series, keeping the timestamps of the first:
the embedding of pandas `Series.__add__` on index-aligned operands.  (pandas
aligns the operands on the union of their indices; on two series with
identical indices — the only case the strict-mode claims concern — this is
exactly positionwise addition.) -/
def addSeries (s t : Series) : Series :=
  List.zipWith (fun a b => (a.1, a.2 + b.2)) s t

/-- Embedding of `aggregate_traces(traces, metadata, how="strict")`
(utils.py lines 36–48): under `how == "strict"` it starts from
`traces[0].series` (an `IndexError` on an empty list) and folds `+=` of each
remaining trace's series into it, returning a new `ApplianceTrace` holding
the summed series and the supplied metadata; any other `how` returns the
class object `NotImplementedError`. -/
def aggregate_traces (traces : List ApplianceTrace) (metadata : Metadata)
    (how : String) : Py ApplianceTrace :=
  if how = "strict" then
    match traces with
    | [] => Py.raised PyError.indexError
    | t :: rest =>
        Py.ok ⟨rest.foldl (fun s tr => addSeries s tr.series) t.series, metadata⟩
  else Py.retNotImplemented

/-- State of the input list of `aggregate_traces` after the call.  The
source accumulates with `summed_series += trace.series` where
`summed_series` is an alias of `traces[0].series`; the pandas in-place add
updates the underlying data of that very Series object, so after a strict
call the first input trace's series holds the aggregate while the remaining
traces are untouched.  (On the `else` branch, and on the empty list — where
`traces[0]` raises before any addition — the inputs are unchanged.) -/
def aggregate_traces_inputs_after (traces : List ApplianceTrace)
    (how : String) : List ApplianceTrace :=
  if how = "strict" then
    match traces with
    | [] => []
    | t :: rest =>
        { t with series := rest.foldl (fun s tr => addSeries s tr.series) t.series } :: rest
  else traces

/-- Embedding of Python `zip(*ls)` (the transpose used by
`aggregate_instances`): rows up to the length of the shortest list, row `i`
holding the `i`-th element of each list. -/
def pyZip {α : Type} (ls : List (List α)) : List (List α) :=
  match ls with
  | [] => []
  | l :: rest =>
      let n := rest.foldl (fun m u => min m u.length) l.length
      (List.range n).map (fun i => (l :: rest).filterMap (fun u => u.get? i))

/-- Sequencing of a Python list comprehension over calls: values are
collected left to right and the first raised exception propagates.  (The
`retNotImplemented` case cannot arise at the one call site, which invokes
`aggregate_traces` with the default `how="strict"`; it is propagated here
for totality.) -/
def collectPy {α : Type} : List (Py α) → Py (List α)
  | [] => Py.ok []
  | r :: rs =>
      match r with
      | Py.ok a =>
          match collectPy rs with
          | Py.ok as => Py.ok (a :: as)
          | Py.retNotImplemented => Py.retNotImplemented
          | Py.raised e => Py.raised e
      | Py.retNotImplemented => Py.retNotImplemented
      | Py.raised e => Py.raised e

/-- Embedding of `aggregate_instances(instances, metadata, how="strict")`
(utils.py lines 23–34): under `how == "strict"` it transposes the instances'
trace lists with `zip(*...)`, aggregates each per-position trace group with
an empty metadata dict, and wraps the results in a new `ApplianceInstance`
carrying the supplied metadata; any other `how` returns the class object
`NotImplementedError`. -/
def aggregate_instances (instances : List ApplianceInstance)
    (metadata : Metadata) (how : String) : Py ApplianceInstance :=
  if how = "strict" then
    let traceGroups := pyZip (instances.map (fun inst => inst.traces))
    match collectPy (traceGroups.map (fun g => aggregate_traces g [] "strict")) with
    | Py.ok newTraces => Py.ok ⟨newTraces, metadata⟩
    | Py.retNotImplemented => Py.retNotImplemented
    | Py.raised e => Py.raised e
  else Py.retNotImplemented

/-- Python dictionary assignment `m[k] = v`: replaces the value at an
existing key, otherwise appends the new binding at the end. -/
def dictSet (m : Metadata) (k : String) (v : Nat) : Metadata :=
  match m with
  | [] => [(k, v)]
  | p :: rest => if p.1 = k then (k, v) :: rest else p :: dictSet rest k v

/-- Python dictionary lookup `m.get(k)`. -/
def dictGet (m : Metadata) (k : String) : Option Nat :=
  match m with
  | [] => none
  | p :: rest => if p.1 = k then some p.2 else dictGet rest k

/-- Embedding of `series.groupby(key of the index)`: one group per distinct
key, keys iterated in ascending order (pandas groups are sorted by key),
each group being the subseries of entries carrying that key, in original
order. -/
def groupbySorted (key : Timestamp → Nat) (s : Series) : List Series :=
  (List.insertionSort (fun a b => a ≤ b) (s.map (fun p => key p.1)).dedup).map
    (fun k => s.filter (fun p => key p.1 = k))

/-- Embedding of `split_trace_into_rate(trace, rate)` (utils.py lines
94–113).  The calendar functions of the pandas index — `index.date` and
`index.week` — are passed in as parameters `dayKey` and `weekKey` mapping a
timestamp to its (totally ordered) calendar-day, resp. week, key.  With
`rate == 'D'` the series is grouped by day key, with `rate == 'W'` by week
key; each group becomes a new trace whose metadata is a copy of the source's
with `trace_num` set to the zero-based group index.  Any other rate prints a
diagnostic (`Looking for 'week' or 'day'`) and falls through, returning the
empty list. -/
def split_trace_into_rate (dayKey weekKey : Timestamp → Nat)
    (trace : ApplianceTrace) (rate : String) : List ApplianceTrace :=
  if rate = "D" then
    (groupbySorted dayKey trace.series).enum.map
      (fun ig => ⟨ig.2, dictSet trace.metadata "trace_num" ig.1⟩)
  else if rate = "W" then
    (groupbySorted weekKey trace.series).enum.map
      (fun ig => ⟨ig.2, dictSet trace.metadata "trace_num" ig.1⟩)
  else []

/-- Python truthiness of the `metadata` argument of `concatenate_traces`
(`if not metadata:`): both the default `None` and an explicitly supplied
empty dict are falsy. -/
def falsyMeta : Option Metadata → Bool
  | none => true
  | some m => m.isEmpty

/-- The metadata-defaulting step of `concatenate_traces` (utils.py lines
143–144): when the argument is falsy it is replaced by `traces[0].metadata`,
raising `IndexError` on an empty trace list. -/
def concatMeta (traces : List ApplianceTrace) (metadata : Option Metadata) :
    Py Metadata :=
  if falsyMeta metadata then
    match traces with
    | [] => Py.raised PyError.indexError
    | tr :: _ => Py.ok tr.metadata
  else Py.ok (metadata.getD [])

/-- Embedding of `concatenate_traces(traces, metadata=None, how="strict")`
(utils.py lines 137–152): first the metadata default (which can raise
`IndexError`), then under `how == "strict"` the result is a new trace whose
series is `pd.concat` of the input series in list order (`pd.concat` of an
empty list raises `ValueError`); any other `how` raises
`NotImplementedError`. -/
def concatenate_traces (traces : List ApplianceTrace)
    (metadata : Option Metadata) (how : String) : Py ApplianceTrace :=
  match concatMeta traces metadata with
  | Py.ok md =>
      if how = "strict" then
        match traces with
        | [] => Py.raised PyError.valueError
        | _ :: _ => Py.ok ⟨(traces.map (fun tr => tr.series)).flatten, md⟩
      else Py.raised PyError.notImplementedError
  | Py.retNotImplemented => Py.retNotImplemented
  | Py.raised e => Py.raised e

/-- Outcome of the external pandas pipeline inside the `try` block of
`resample_trace` (`astype(float)`, `resample(sample_rate, how='mean')`,
`map(Decimal)`, name restoration): either a resampled series, or the
`ValueError` pandas raises when the requested rate is invalid for the
series' index. -/
inductive PandasOutcome where
  | ok : Series → PandasOutcome
  | valueError : PandasOutcome
  deriving DecidableEq

/-- Embedding of `resample_trace(trace, sample_rate)` (utils.py lines
169–182), parameterized by the external pandas resampling pipeline.  On
success a new trace wraps the resampled series with the source's metadata.
When pandas raises `ValueError`, the handler executes
`raise SampleError(self.sample_rate)` — but `self` is not bound in this
module-level function (and no `SampleError` is defined anywhere in the
module), so evaluating that expression itself raises `NameError`, which is
what the caller sees. -/
def resample_trace (pandasResample : Series → String → PandasOutcome)
    (trace : ApplianceTrace) (sample_rate : String) : Py ApplianceTrace :=
  match pandasResample trace.series sample_rate with
  | PandasOutcome.ok s => Py.ok ⟨s, trace.metadata⟩
  | PandasOutcome.valueError => Py.raised PyError.nameError

/-- First timestamp of a trace, `t.series.index[0]`; the `0` default is
never consulted where `order_traces` demands a non-empty series. -/
def firstTime (t : ApplianceTrace) : Timestamp :=
  match t.series with
  | [] => 0
  | p :: _ => p.1

/-- Admissible result of `np.argsort(keys)`: numpy guarantees a permutation
of the indices `0 .. keys.length - 1` that puts the keys in ascending
order, but the relative order of equal keys is implementation-defined (the
default `quicksort` kind is documented as not stable and its partitioning
swaps tied elements), so `argsort` is modelled as the relation admitting
every key-sorting permutation of the indices. -/
def isArgsortOf (keys : List Nat) (order : List Nat) : Prop :=
  List.Perm order (List.range keys.length) ∧
  List.Sorted (fun i j => i ≤ j) (order.map (fun i => keys.getD i 0))

/-- Embedding of `order_traces(traces)` (utils.py lines 203–210) as an
input/output relation: the call computes `np.argsort` of the traces' first
timestamps (`series.index[0]`, which raises `IndexError` on an empty
series) and re-indexes the trace list by the resulting permutation.
`order_traces traces out` holds iff every trace has a first index entry and
`out` is the input list re-indexed by some admissible argsort of the first
timestamps; the relation is nondeterministic exactly where numpy is — on
tied keys any key-sorting permutation may be returned. -/
def order_traces (traces out : List ApplianceTrace) : Prop :=
  (∀ t ∈ traces, t.series ≠ []) ∧
  ∃ order, isArgsortOf (traces.map firstTime) order ∧
    out = order.filterMap (fun i => traces.get? i)

/-- Embedding of `get_trace_windows(trace, window_length, window_step)`
(utils.py lines 245–256): `n_steps` is the Python-2 floor division
`(total_length - window_length) / window_step`, and window `step` holds the
values of the positional slice `series[start : start + window_length]` with
`start = step * window_step`.  (`range` of a non-positive count is empty,
matching `Int.toNat`.) -/
def get_trace_windows (trace : ApplianceTrace)
    (window_length window_step : Nat) : List (List Int) :=
  let total_length : Int := trace.series.length
  let n_steps : Int := Int.fdiv (total_length - window_length) window_step
  (List.range n_steps.toNat).map (fun step =>
    ((trace.series.drop (step * window_step)).take window_length).map Prod.snd)

/-! ### Helper lemmas about series addition -/

/-- Value of a series at position `i` (0 beyond the end). -/
def valAt (s : Series) (i : Nat) : Int := (s.map Prod.snd).getD i 0

lemma valAt_nil (i : Nat) : valAt [] i = 0 := by
  simp [valAt]

lemma valAt_cons (p : Timestamp × Int) (s : Series) :
    valAt (p :: s) 0 = p.2 ∧ ∀ i, valAt (p :: s) (i + 1) = valAt s i := by
  constructor
  · simp [valAt]
  · intro i; simp [valAt, List.getD]

lemma addSeries_fst (s : Series) : ∀ u : Series, u.length = s.length →
    (addSeries s u).map Prod.fst = s.map Prod.fst := by
  induction s with
  | nil => intro u h; simp [addSeries]
  | cons a s ih =>
      intro u h
      cases u with
      | nil => simp at h
      | cons b u =>
          simp only [List.length_cons, Nat.succ.injEq] at h
          simp [addSeries, List.zipWith, List.map_cons]
          exact ih u h

lemma addSeries_valAt (s : Series) : ∀ (u : Series) (i : Nat),
    u.length = s.length →
    valAt (addSeries s u) i = valAt s i + valAt u i := by
  induction s with
  | nil =>
      intro u i h
      have hu : u = [] := List.length_eq_zero.mp (by simpa using h)
      subst hu
      simp [addSeries, valAt]
  | cons a s ih =>
      intro u i h
      cases u with
      | nil => simp at h
      | cons b u =>
          simp only [List.length_cons, Nat.succ.injEq] at h
          cases i with
          | zero => simp [addSeries, valAt]
          | succ i =>
              have hs : addSeries (a :: s) (b :: u)
                  = (a.1, a.2 + b.2) :: addSeries s u := rfl
              rw [hs, (valAt_cons _ _).2, (valAt_cons _ _).2, (valAt_cons _ _).2]
              exact ih u i h

lemma length_of_fst_eq {s u : Series}
    (h : u.map Prod.fst = s.map Prod.fst) : u.length = s.length := by
  have := congrArg List.length h
  simpa using this

lemma foldl_addSeries_fst (l : List Series) : ∀ s : Series,
    (∀ u ∈ l, u.map Prod.fst = s.map Prod.fst) →
    (l.foldl addSeries s).map Prod.fst = s.map Prod.fst := by
  induction l with
  | nil => intro s _; rfl
  | cons u l ih =>
      intro s h
      have hu : u.map Prod.fst = s.map Prod.fst := h u (by simp)
      have hfst : (addSeries s u).map Prod.fst = s.map Prod.fst :=
        addSeries_fst s u (length_of_fst_eq hu)
      have : (l.foldl addSeries (addSeries s u)).map Prod.fst
          = (addSeries s u).map Prod.fst := by
        refine ih (addSeries s u) ?_
        intro v hv
        rw [hfst]
        exact h v (by simp [hv])
      simpa [List.foldl_cons, hfst] using this

lemma foldl_addSeries_valAt (l : List Series) : ∀ (s : Series) (i : Nat),
    (∀ u ∈ l, u.map Prod.fst = s.map Prod.fst) →
    valAt (l.foldl addSeries s) i
      = valAt s i + (l.map (fun u => valAt u i)).sum := by
  induction l with
  | nil => intro s i _; simp
  | cons u l ih =>
      intro s i h
      have hu : u.map Prod.fst = s.map Prod.fst := h u (by simp)
      have hfst : (addSeries s u).map Prod.fst = s.map Prod.fst :=
        addSeries_fst s u (length_of_fst_eq hu)
      have hrec : valAt (l.foldl addSeries (addSeries s u)) i
          = valAt (addSeries s u) i + (l.map (fun v => valAt v i)).sum := by
        refine ih (addSeries s u) i ?_
        intro v hv
        rw [hfst]
        exact h v (by simp [hv])
      have hadd : valAt (addSeries s u) i = valAt s i + valAt u i :=
        addSeries_valAt s u i (length_of_fst_eq hu)
      simp only [List.foldl_cons, List.map_cons, List.sum_cons]
      rw [hrec, hadd]
      ring

/-! ### Claims C1 and C2: strict aggregation -/

/-- C1: for every non-empty list of temporally-aligned traces (same length,
same timestamps, same order) and any supplied metadata mapping,
`aggregate_traces` with `how="strict"` returns a single trace whose series
has the same length as each input series, whose sample at every position is
the sum of the corresponding input samples, and which carries the supplied
metadata. -/
theorem aggregate_traces_strict_sum (t : ApplianceTrace)
    (rest : List ApplianceTrace) (md : Metadata)
    (halign : ∀ tr ∈ t :: rest, tr.series.map Prod.fst = t.series.map Prod.fst) :
    ∃ out, aggregate_traces (t :: rest) md "strict" = Py.ok out ∧
      out.series.length = t.series.length ∧
      (∀ tr ∈ t :: rest, tr.series.length = t.series.length) ∧
      (∀ i, valAt out.series i
          = ((t :: rest).map (fun tr => valAt tr.series i)).sum) ∧
      out.metadata = md := by
  have hfold : rest.foldl (fun s tr => addSeries s tr.series) t.series
      = (rest.map (fun tr => tr.series)).foldl addSeries t.series := by
    rw [List.foldl_map]
  have halign' : ∀ u ∈ rest.map (fun tr => tr.series),
      u.map Prod.fst = t.series.map Prod.fst := by
    intro u hu
    rcases List.mem_map.mp hu with ⟨tr, htr, rfl⟩
    exact halign tr (by simp [htr])
  refine ⟨⟨rest.foldl (fun s tr => addSeries s tr.series) t.series, md⟩,
    by simp [aggregate_traces], ?_, ?_, ?_, rfl⟩
  · have := foldl_addSeries_fst (rest.map (fun tr => tr.series)) t.series halign'
    rw [hfold]
    have hlen := congrArg List.length this
    simpa using hlen
  · intro tr htr
    exact length_of_fst_eq (halign tr htr)
  · intro i
    have := foldl_addSeries_valAt (rest.map (fun tr => tr.series)) t.series i halign'
    rw [hfold, this]
    simp [List.map_map, Function.comp_def]

/-- Witness for C1 at a concrete input: two aligned two-sample traces. -/
theorem aggregate_traces_strict_sum_witness :
    ∃ out, aggregate_traces
        [⟨[(0,1),(60,2)],[]⟩, ⟨[(0,10),(60,20)],[]⟩] [("n",7)] "strict"
        = Py.ok out ∧
      out.series.length = ([(0,1),(60,2)] : Series).length ∧
      (∀ tr ∈ [(⟨[(0,1),(60,2)],[]⟩ : ApplianceTrace), ⟨[(0,10),(60,20)],[]⟩],
        tr.series.length = ([(0,1),(60,2)] : Series).length) ∧
      (∀ i, valAt out.series i
          = (([(⟨[(0,1),(60,2)],[]⟩ : ApplianceTrace), ⟨[(0,10),(60,20)],[]⟩]).map
              (fun tr => valAt tr.series i)).sum) ∧
      out.metadata = [("n",7)] :=
  aggregate_traces_strict_sum ⟨[(0,1),(60,2)],[]⟩ [⟨[(0,10),(60,20)],[]⟩]
    [("n",7)] (by decide)

/-- C2: the spec asserts all transforms other than `create_datetimeindex`
leave their inputs unchanged, but `aggregate_traces` violates this: the
in-place `summed_series += trace.series` aliases `traces[0].series`, so
after a strict aggregation of the two one-sample traces `(0 ↦ 1)` and
`(0 ↦ 2)` the first input trace's series holds the aggregate `(0 ↦ 3)`
instead of its original values. -/
theorem aggregate_traces_mutates_first_input :
    aggregate_traces_inputs_after [⟨[(0,1)],[]⟩, ⟨[(0,2)],[]⟩] "strict"
      ≠ [⟨[(0,1)],[]⟩, ⟨[(0,2)],[]⟩] ∧
    aggregate_traces_inputs_after [⟨[(0,1)],[]⟩, ⟨[(0,2)],[]⟩] "strict"
      = [⟨[(0,3)],[]⟩, ⟨[(0,2)],[]⟩] := by
  constructor
  · decide
  · decide

/-! ### Claims C3, C10 and C9: concatenation and unimplemented modes -/

/-- C3: for every ordered non-empty list of traces, `concatenate_traces`
with `how="strict"` and no metadata argument returns one trace whose series
is exactly the concatenation of the input series in list order (no sorting),
whose length is the sum of the input lengths, and which carries the first
input trace's metadata. -/
theorem concatenate_traces_strict_concat (t : ApplianceTrace)
    (rest : List ApplianceTrace) :
    ∃ out, concatenate_traces (t :: rest) none "strict" = Py.ok out ∧
      out.series = ((t :: rest).map (fun tr => tr.series)).flatten ∧
      out.series.length = ((t :: rest).map (fun tr => tr.series.length)).sum ∧
      out.metadata = t.metadata := by
  refine ⟨⟨((t :: rest).map (fun tr => tr.series)).flatten, t.metadata⟩,
    ?_, rfl, ?_, rfl⟩
  · simp [concatenate_traces, concatMeta, falsyMeta]
  · simp [List.length_flatten, List.map_map, Function.comp_def]

/-- C10: supplying an explicitly empty metadata mapping to
`concatenate_traces` still yields the first input trace's metadata — the
default is triggered by falsiness (`if not metadata:`), not only by the
argument's absence. -/
theorem concatenate_traces_empty_metadata_defaults_first (t : ApplianceTrace)
    (rest : List ApplianceTrace) :
    ∃ out, concatenate_traces (t :: rest) (some []) "strict" = Py.ok out ∧
      out.metadata = t.metadata := by
  refine ⟨⟨((t :: rest).map (fun tr => tr.series)).flatten, t.metadata⟩, ?_, rfl⟩
  simp [concatenate_traces, concatMeta, falsyMeta]

/-- C9 fails as stated: a call to `concatenate_traces` with an empty trace
list, no metadata and a non-"strict" mode raises `IndexError` from the
metadata-defaulting step (`traces[0].metadata` runs before the mode check),
not a not-implemented failure. -/
theorem concatenate_traces_nonstrict_empty_raises_index_error :
    concatenate_traces [] none "loose" = Py.raised PyError.indexError ∧
    concatenate_traces [] none "loose" ≠ Py.raised PyError.notImplementedError ∧
    concatenate_traces [] none "loose" ≠ (Py.retNotImplemented : Py ApplianceTrace) := by
  refine ⟨by decide, by decide, by decide⟩

/-- C9 (amended): for every `how` other than `"strict"`,
`aggregate_traces` and `aggregate_instances` return the class object
`NotImplementedError` (no combined result), and `concatenate_traces` raises
`NotImplementedError` provided the metadata-defaulting step does not fail
first — i.e. whenever a truthy metadata is supplied or the trace list is
non-empty; in the one remaining case (empty list, falsy metadata) it raises
`IndexError` instead. -/
theorem non_strict_modes_not_implemented (tl : List ApplianceTrace)
    (il : List ApplianceInstance) (md : Metadata) (mo : Option Metadata)
    (how : String) (h : how ≠ "strict") :
    aggregate_traces tl md how = Py.retNotImplemented ∧
    aggregate_instances il md how = Py.retNotImplemented ∧
    (falsyMeta mo = false ∨ tl ≠ [] →
      concatenate_traces tl mo how = Py.raised PyError.notImplementedError) := by
  refine ⟨by simp [aggregate_traces, h], by simp [aggregate_instances, h], ?_⟩
  intro hside
  cases hside with
  | inl hf => simp [concatenate_traces, concatMeta, hf, h]
  | inr hne =>
      cases tl with
      | nil => exact absurd rfl hne
      | cons a l =>
          cases hfm : falsyMeta mo <;>
            simp [concatenate_traces, concatMeta, hfm, h]

/-- Witness for the amended C9 at a concrete input: `how = "loose"`. -/
theorem non_strict_modes_not_implemented_witness :
    aggregate_traces [⟨[(0,1)],[]⟩] [] "loose" = Py.retNotImplemented ∧
    aggregate_instances [] [] "loose" = Py.retNotImplemented ∧
    (falsyMeta none = false ∨ [(⟨[(0,1)],[]⟩ : ApplianceTrace)] ≠ [] →
      concatenate_traces [⟨[(0,1)],[]⟩] none "loose"
        = Py.raised PyError.notImplementedError) :=
  non_strict_modes_not_implemented [⟨[(0,1)],[]⟩] [] [] none "loose" (by decide)

/-! ### Claim C4: sliding windows -/

/-- C4: for every trace and positive `window_length`, `window_step`,
`get_trace_windows` has exactly `⌊(L − window_length) / window_step⌋` rows
(`Int.toNat` of it: zero rows — an empty array, not a failure — when that
floor is zero or negative), and row `i` holds the `window_length`
consecutive samples starting at offset `i * window_step`. -/
theorem get_trace_windows_shape (t : ApplianceTrace) (w s : Nat)
    (hw : 0 < w) (hs : 0 < s) :
    (get_trace_windows t w s).length
        = (Int.fdiv ((t.series.length : Int) - w) s).toNat ∧
    (Int.fdiv ((t.series.length : Int) - w) s ≤ 0 →
      get_trace_windows t w s = []) ∧
    ∀ i, (hi : i < (get_trace_windows t w s).length) →
      (get_trace_windows t w s).get ⟨i, hi⟩
          = ((t.series.drop (i * s)).take w).map Prod.snd ∧
      ((get_trace_windows t w s).get ⟨i, hi⟩).length = w := by
  have hlen : (get_trace_windows t w s).length
      = (Int.fdiv ((t.series.length : Int) - w) s).toNat := by
    simp [get_trace_windows]
  refine ⟨hlen, ?_, ?_⟩
  · intro hne
    have : (Int.fdiv ((t.series.length : Int) - w) s).toNat = 0 := by omega
    simp [get_trace_windows, this]
  · intro i hi
    have hget : (get_trace_windows t w s).get ⟨i, hi⟩
        = ((t.series.drop (i * s)).take w).map Prod.snd := by
      simp [get_trace_windows, List.get_eq_getElem]
    refine ⟨hget, ?_⟩
    have hi' : i < (Int.fdiv ((t.series.length : Int) - w) s).toNat := by
      rw [hlen] at hi; exact hi
    have h1 : (i : Int) < Int.fdiv ((t.series.length : Int) - w) s := by omega
    have h2 : Int.fdiv ((t.series.length : Int) - w) s
        = ((t.series.length : Int) - w) / s :=
      Int.fdiv_eq_ediv _ (by exact_mod_cast Nat.zero_le s)
    have h3 : (i : Int) + 1 ≤ ((t.series.length : Int) - w) / s := by omega
    have h4 : ((i : Int) + 1) * s ≤ (t.series.length : Int) - w :=
      (Int.le_ediv_iff_mul_le (by exact_mod_cast hs)).mp h3
    have h5 : (i : Int) * s + s ≤ (t.series.length : Int) - w := by
      rw [add_mul, one_mul] at h4; exact h4
    have hcast : ((i * s : Nat) : Int) = (i : Int) * s := by push_cast; ring
    have h6 : i * s + w ≤ t.series.length := by omega
    rw [hget]
    simp only [List.length_map, List.length_take, List.length_drop]
    omega

/-- Witness for C4 at the spec's worked example: a 10-sample trace with
window length 3 and step 2 yields 3 windows. -/
theorem get_trace_windows_shape_witness :
    0 < 3 ∧ 0 < 2 ∧
    (get_trace_windows ⟨(List.range 10).map (fun i => (i, (i : Int))), []⟩ 3 2).length
      = (Int.fdiv (((((List.range 10).map (fun i => (i, (i : Int)))) : Series).length : Int) - 3) 2).toNat :=
  ⟨by decide, by decide,
    (get_trace_windows_shape ⟨(List.range 10).map (fun i => (i, (i : Int))), []⟩
      3 2 (by decide) (by decide)).1⟩

/-! ### Claim C5: resampling error path -/

/-- C5 fails as the spec states it: whenever the requested sample rate is
invalid for the trace's index (the pandas resampling pipeline raises
`ValueError`), `resample_trace` does not raise a sampling-specific error
carrying the offending rate — the handler's `raise SampleError(self.sample_rate)`
trips over the unbound name `self` (and the nowhere-defined `SampleError`),
so the caller sees a `NameError` instead, for every possible rate payload. -/
theorem resample_trace_invalid_rate_raises_name_error
    (pandasResample : Series → String → PandasOutcome)
    (trace : ApplianceTrace) (sample_rate : String)
    (h : pandasResample trace.series sample_rate = PandasOutcome.valueError) :
    resample_trace pandasResample trace sample_rate
        = Py.raised PyError.nameError ∧
    ∀ r, resample_trace pandasResample trace sample_rate
        ≠ Py.raised (PyError.sampleError r) := by
  constructor
  · simp [resample_trace, h]
  · intro r
    simp [resample_trace, h]

/-- Witness for C5 at a concrete input: a pipeline that rejects the rate. -/
theorem resample_trace_invalid_rate_raises_name_error_witness :
    resample_trace (fun _ _ => PandasOutcome.valueError) ⟨[(0,1)],[]⟩ "5T"
        = Py.raised PyError.nameError ∧
    ∀ r, resample_trace (fun _ _ => PandasOutcome.valueError) ⟨[(0,1)],[]⟩ "5T"
        ≠ Py.raised (PyError.sampleError r) :=
  resample_trace_invalid_rate_raises_name_error
    (fun _ _ => PandasOutcome.valueError) ⟨[(0,1)],[]⟩ "5T" rfl

/-! ### Claims C6 and C7: rate-based splitting -/

lemma dictGet_dictSet_same (m : Metadata) (k : String) (v : Nat) :
    dictGet (dictSet m k v) k = some v := by
  induction m with
  | nil => simp [dictSet, dictGet]
  | cons p rest ih =>
      by_cases h : p.1 = k
      · simp [dictSet, dictGet, h]
      · simp [dictSet, dictGet, h, ih]

lemma dictGet_dictSet_ne (m : Metadata) (k k2 : String) (v : Nat)
    (h : k2 ≠ k) : dictGet (dictSet m k v) k2 = dictGet m k2 := by
  induction m with
  | nil => simp [dictSet, dictGet, Ne.symm h]
  | cons p rest ih =>
      by_cases hp : p.1 = k
      · simp [dictSet, dictGet, hp, Ne.symm h]
      · by_cases hp2 : p.1 = k2
        · simp [dictSet, dictGet, hp, hp2, h]
        · simp [dictSet, dictGet, hp, hp2, ih]

lemma split_trace_into_rate_D_length (dayKey weekKey : Timestamp → Nat)
    (t : ApplianceTrace) :
    (split_trace_into_rate dayKey weekKey t "D").length
      = ((t.series.map (fun p => dayKey p.1)).dedup).length := by
  simp [split_trace_into_rate, groupbySorted, List.length_insertionSort]

/-- C6 fails as stated: the granularity tokens the code accepts are the
pandas offset aliases `'D'` and `'W'`, not the words `day` and `week` the
spec names — on the token `"day"` the function prints its diagnostic and
returns the empty list although the trace is non-empty, while `"D"` on the
same trace produces a group. -/
theorem split_trace_into_rate_day_token_rejected :
    split_trace_into_rate (fun ts => ts / 86400) (fun ts => ts / 604800)
      ⟨[(0,1)],[]⟩ "day" = [] ∧
    split_trace_into_rate (fun ts => ts / 86400) (fun ts => ts / 604800)
      ⟨[(0,1)],[]⟩ "D" ≠ [] := by
  refine ⟨by decide, by decide⟩

/-- C6 (amended): `split_trace_into_rate` accepts exactly the granularity
tokens `'D'` (group by calendar date) and `'W'` (group by week number): on a
non-empty trace each accepted token produces at least one group-trace, and
every other token makes the function print a diagnostic and return an empty
collection rather than raising a failure. -/
theorem split_trace_into_rate_accepts_D_W (dayKey weekKey : Timestamp → Nat)
    (t : ApplianceTrace) (rate : String) :
    (rate ≠ "D" → rate ≠ "W" →
      split_trace_into_rate dayKey weekKey t rate = []) ∧
    (t.series ≠ [] →
      split_trace_into_rate dayKey weekKey t "D" ≠ [] ∧
      split_trace_into_rate dayKey weekKey t "W" ≠ []) := by
  constructor
  · intro h1 h2
    simp [split_trace_into_rate, h1, h2]
  · intro hne
    have hkeys : ∀ key : Timestamp → Nat,
        (t.series.map (fun p => key p.1)).dedup ≠ [] := by
      intro key hnil
      rw [List.dedup_eq_nil, List.map_eq_nil_iff] at hnil
      exact hne hnil
    constructor
    · intro hnil
      have := congrArg List.length hnil
      rw [split_trace_into_rate_D_length] at this
      exact hkeys dayKey (List.length_eq_zero.mp (by simpa using this))
    · intro hnil
      have := congrArg List.length hnil
      simp [split_trace_into_rate, groupbySorted, List.length_insertionSort] at this
      exact hkeys weekKey (List.length_eq_zero.mp (by simpa using this))

/-- Witness for the amended C6 at concrete inputs: the token `"xyz"` yields
the empty list; the accepted tokens yield non-empty output on a one-sample
trace. -/
theorem split_trace_into_rate_accepts_D_W_witness :
    ((("xyz" : String) ≠ "D") ∧ (("xyz" : String) ≠ "W") ∧
      split_trace_into_rate (fun ts => ts / 86400) (fun ts => ts / 604800)
        ⟨[(0,1)],[]⟩ "xyz" = []) ∧
    ((([(0,1)] : Series) ≠ []) ∧
      split_trace_into_rate (fun ts => ts / 86400) (fun ts => ts / 604800)
        ⟨[(0,1)],[]⟩ "D" ≠ [] ∧
      split_trace_into_rate (fun ts => ts / 86400) (fun ts => ts / 604800)
        ⟨[(0,1)],[]⟩ "W" ≠ []) :=
  ⟨⟨by decide, by decide,
      (split_trace_into_rate_accepts_D_W (fun ts => ts / 86400)
        (fun ts => ts / 604800) ⟨[(0,1)],[]⟩ "xyz").1 (by decide) (by decide)⟩,
    ⟨by decide,
      (split_trace_into_rate_accepts_D_W (fun ts => ts / 86400)
        (fun ts => ts / 604800) ⟨[(0,1)],[]⟩ "xyz").2 (by decide)⟩⟩

/-- C7: a trace whose series spans exactly 3 distinct calendar days, split
by the day granularity, yields exactly 3 traces carrying sequential
`trace_num` values 0, 1, 2 in output order, with every other metadata entry
equal to the source trace's. -/
theorem split_day_three_groups (dayKey weekKey : Timestamp → Nat)
    (t : ApplianceTrace)
    (h3 : ((t.series.map (fun p => dayKey p.1)).dedup).length = 3) :
    (split_trace_into_rate dayKey weekKey t "D").length = 3 ∧
    ∀ i, (hi : i < (split_trace_into_rate dayKey weekKey t "D").length) →
      dictGet ((split_trace_into_rate dayKey weekKey t "D").get ⟨i, hi⟩).metadata
          "trace_num" = some i ∧
      ∀ k, k ≠ "trace_num" →
        dictGet ((split_trace_into_rate dayKey weekKey t "D").get ⟨i, hi⟩).metadata k
          = dictGet t.metadata k := by
  refine ⟨by rw [split_trace_into_rate_D_length]; exact h3, ?_⟩
  intro i hi
  have hmeta : ((split_trace_into_rate dayKey weekKey t "D").get ⟨i, hi⟩).metadata
      = dictSet t.metadata "trace_num" i := by
    simp [split_trace_into_rate, List.get_eq_getElem]
  rw [hmeta]
  exact ⟨dictGet_dictSet_same _ _ _, fun k hk => dictGet_dictSet_ne _ _ _ _ hk⟩

/-- Witness for C7 at a concrete input: one sample on each of three
consecutive days. -/
theorem split_day_three_groups_witness :
    ((([(0,1),(86400,2),(172800,3)] : Series).map
        (fun p => p.1 / 86400)).dedup).length = 3 ∧
    (split_trace_into_rate (fun ts => ts / 86400) (fun ts => ts / 604800)
      ⟨[(0,1),(86400,2),(172800,3)],[("src",5)]⟩ "D").length = 3 :=
  ⟨by decide,
    (split_day_three_groups (fun ts => ts / 86400) (fun ts => ts / 604800)
      ⟨[(0,1),(86400,2),(172800,3)],[("src",5)]⟩ (by decide)).1⟩

/-! ### Claim C8: chronological ordering -/

lemma range_filterMap_get (l : List ApplianceTrace) :
    (List.range l.length).filterMap (fun i => l.get? i) = l := by
  induction l with
  | nil => rfl
  | cons a l ih =>
      rw [List.length_cons, List.range_succ_eq_map,
        List.filterMap_cons_some (List.get?_cons_zero), List.filterMap_map]
      have hfun : ((fun i => (a :: l).get? i) ∘ Nat.succ)
          = fun i => l.get? i := by
        funext i
        rfl
      rw [hfun, ih]

lemma range_map_getD (keys : List Nat) :
    (List.range keys.length).map (fun i => keys.getD i 0) = keys := by
  induction keys with
  | nil => rfl
  | cons a l ih =>
      rw [List.length_cons, List.range_succ_eq_map, List.map_cons,
        List.map_map]
      have hfun : ((fun i => (a :: l).getD i 0) ∘ Nat.succ)
          = fun i => l.getD i 0 := by
        funext i
        simp [Function.comp, List.getD_cons_succ]
      rw [hfun, ih, List.getD_cons_zero]

lemma map_firstTime_filterMap (traces : List ApplianceTrace) :
    ∀ order : List Nat, (∀ i ∈ order, i < traces.length) →
      (order.filterMap (fun i => traces.get? i)).map firstTime
        = order.map (fun i => (traces.map firstTime).getD i 0) := by
  intro order
  induction order with
  | nil => intro _; rfl
  | cons i rest ih =>
      intro h
      have hi : i < traces.length := h i (by simp)
      rw [List.filterMap_cons_some (List.get?_eq_get hi), List.map_cons,
        List.map_cons, ih (fun j hj => h j (by simp [hj]))]
      congr 1
      simp [List.getD_eq_getElem?_getD, List.getElem?_map,
        List.getElem?_eq_getElem hi, List.get_eq_getElem]

lemma isArgsortOf_of_strict_sorted (keys : List Nat) (order : List Nat)
    (hstrict : List.Sorted (fun i j => i < j) keys)
    (h : isArgsortOf keys order) : order = List.range keys.length := by
  obtain ⟨hperm, hsort⟩ := h
  have hnodup : keys.Nodup := hstrict.imp (fun hab => Nat.ne_of_lt hab)
  have hle : List.Sorted (fun i j => i ≤ j) keys :=
    hstrict.imp (fun hab => Nat.le_of_lt hab)
  have hpermmap : List.Perm (order.map (fun i => keys.getD i 0)) keys := by
    have h1 : List.Perm (order.map (fun i => keys.getD i 0))
        ((List.range keys.length).map (fun i => keys.getD i 0)) :=
      hperm.map _
    rwa [range_map_getD] at h1
  have hmapeq : order.map (fun i => keys.getD i 0) = keys :=
    List.eq_of_perm_of_sorted hpermmap hsort hle
  have hlen : order.length = keys.length := by
    simpa using hperm.length_eq
  apply List.ext_getElem (by simpa using hlen)
  intro j hj1 hj2
  have hjk : j < keys.length := by simpa using hj2
  have hmem : order.get ⟨j, hj1⟩ ∈ order := List.get_mem order j hj1
  have hltr : order.get ⟨j, hj1⟩ ∈ List.range keys.length := hperm.subset hmem
  have hlt : order.get ⟨j, hj1⟩ < keys.length := List.mem_range.mp hltr
  have e1 := congrArg (fun l => l[j]?) hmapeq
  simp only [List.getElem?_map] at e1
  rw [List.getElem?_eq_getElem hj1, List.getElem?_eq_getElem hjk] at e1
  simp only [Option.map_some'] at e1
  have e2 : keys.getD (order[j]) 0 = keys[j] := Option.some.inj e1
  have e3 : keys.getD (order[j]) 0 = keys[order[j]] := by
    rw [List.getD_eq_getElem?_getD,
      List.getElem?_eq_getElem (show order[j] < keys.length from hlt)]
    rfl
  have e4 : keys[order[j]] = keys[j] := by rw [← e3, e2]
  have e5 : order[j] = j := (List.Nodup.getElem_inj_iff hnodup).mp e4
  rw [e5, List.getElem_range]

/-- C8 fails as stated: `np.argsort`'s default quicksort is not stable, so
on tied first timestamps the order of the result among the tied traces is
implementation-defined.  On the two distinct traces sharing first timestamp
0, the already-sorted list is a possible output of `order_traces` applied
to itself — and so is the swapped list: applying the function to its own
output need not return that output unchanged, refuting the idempotence the
claim asserts for every list of traces. -/
theorem order_traces_not_idempotent_on_ties :
    order_traces [⟨[(0,1)],[]⟩, ⟨[(0,2)],[]⟩] [⟨[(0,1)],[]⟩, ⟨[(0,2)],[]⟩] ∧
    order_traces [⟨[(0,1)],[]⟩, ⟨[(0,2)],[]⟩] [⟨[(0,2)],[]⟩, ⟨[(0,1)],[]⟩] ∧
    [(⟨[(0,2)],[]⟩ : ApplianceTrace), ⟨[(0,1)],[]⟩]
      ≠ [⟨[(0,1)],[]⟩, ⟨[(0,2)],[]⟩] := by
  refine ⟨⟨by decide, [0,1], ⟨by decide, by decide⟩, by decide⟩,
    ⟨by decide, [1,0], ⟨by decide, by decide⟩, by decide⟩, by decide⟩

/-- C8 (amended): an output of `order_traces` exists for every list of
traces that have a first timestamp, every possible output is the input
traces — a permutation of them — sorted ascending by first timestamp, and
the function is idempotent on every list whose first timestamps are
pairwise distinct: re-applying it to any of its outputs returns that output
unchanged.  (On tied first timestamps the tie order is
implementation-defined, so idempotence is not guaranteed there.) -/
theorem order_traces_sorted_and_tiefree_idempotent
    (traces : List ApplianceTrace)
    (hne : ∀ t ∈ traces, t.series ≠ []) :
    (∃ out, order_traces traces out) ∧
    (∀ out, order_traces traces out →
      List.Perm out traces ∧
      List.Sorted (fun a b => firstTime a ≤ firstTime b) out) ∧
    ((traces.map firstTime).Nodup →
      ∀ out out2, order_traces traces out → order_traces out out2 →
        out2 = out) := by
  have hmain : ∀ tl : List ApplianceTrace, ∀ out, order_traces tl out →
      List.Perm out tl ∧
      List.Sorted (fun a b => firstTime a ≤ firstTime b) out := by
    intro tl out hout
    obtain ⟨-, order, ⟨hperm, hsort⟩, rfl⟩ := hout
    have hbound : ∀ i ∈ order, i < tl.length := by
      intro i hi
      have hmem := hperm.subset hi
      simpa using List.mem_range.mp hmem
    constructor
    · have h1 : List.Perm (order.filterMap (fun i => tl.get? i))
          ((List.range (tl.map firstTime).length).filterMap
            (fun i => tl.get? i)) := hperm.filterMap _
      rw [List.length_map, range_filterMap_get] at h1
      exact h1
    · have hmap := map_firstTime_filterMap tl order hbound
      have hpair : ((order.filterMap (fun i => tl.get? i)).map
          firstTime).Pairwise (fun i j => i ≤ j) := by
        rw [hmap]
        exact hsort
      exact List.pairwise_map.mp hpair
  refine ⟨?_, hmain traces, ?_⟩
  · haveI : IsTotal Nat (fun i j =>
        (traces.map firstTime).getD i 0 ≤ (traces.map firstTime).getD j 0) :=
      ⟨fun a b => Nat.le_total _ _⟩
    haveI : IsTrans Nat (fun i j =>
        (traces.map firstTime).getD i 0 ≤ (traces.map firstTime).getD j 0) :=
      ⟨fun _ _ _ hab hbc => Nat.le_trans hab hbc⟩
    refine ⟨(List.insertionSort (fun i j =>
        (traces.map firstTime).getD i 0 ≤ (traces.map firstTime).getD j 0)
        (List.range (traces.map firstTime).length)).filterMap
          (fun i => traces.get? i),
      hne, List.insertionSort (fun i j =>
        (traces.map firstTime).getD i 0 ≤ (traces.map firstTime).getD j 0)
        (List.range (traces.map firstTime).length),
      ⟨List.perm_insertionSort _ _, ?_⟩, rfl⟩
    exact List.pairwise_map.mpr (List.sorted_insertionSort _ _)
  · intro hnodup out out2 h1 h2
    obtain ⟨hperm1, hsort1⟩ := hmain traces out h1
    have hkeys2nodup : (out.map firstTime).Nodup :=
      ((hperm1.map firstTime).symm).nodup hnodup
    have hsort2le : List.Sorted (fun i j => i ≤ j) (out.map firstTime) :=
      List.pairwise_map.mpr hsort1
    have hstrict : List.Sorted (fun i j => i < j) (out.map firstTime) :=
      (hsort2le.and hkeys2nodup).imp
        (fun hab => Nat.lt_of_le_of_ne hab.1 hab.2)
    obtain ⟨-, order2, hiso2, rfl⟩ := h2
    rw [isArgsortOf_of_strict_sorted _ _ hstrict hiso2, List.length_map,
      range_filterMap_get]

/-- Witness for the amended C8 at a concrete input: two one-sample traces
with the distinct first timestamps 5 and 3. -/
theorem order_traces_sorted_and_tiefree_idempotent_witness :
    (∃ out, order_traces [⟨[(5,1)],[]⟩, ⟨[(3,2)],[]⟩] out) ∧
    (∀ out, order_traces [⟨[(5,1)],[]⟩, ⟨[(3,2)],[]⟩] out →
      List.Perm out [⟨[(5,1)],[]⟩, ⟨[(3,2)],[]⟩] ∧
      List.Sorted (fun a b => firstTime a ≤ firstTime b) out) ∧
    ((([(⟨[(5,1)],[]⟩ : ApplianceTrace), ⟨[(3,2)],[]⟩]).map firstTime).Nodup →
      ∀ out out2, order_traces [⟨[(5,1)],[]⟩, ⟨[(3,2)],[]⟩] out →
        order_traces out out2 → out2 = out) :=
  order_traces_sorted_and_tiefree_idempotent
    [⟨[(5,1)],[]⟩, ⟨[(3,2)],[]⟩] (by decide)
